import Mathlib

/-!
Verification of the acd_cli core: the cache sync engine (src/cache/sync.py)
and the FUSE layer with its read/write proxies (src/acdcli/acd_fuse.py).
The Python code is shallowly embedded as executable Lean functions; session
state is passed explicitly and exceptions are modelled as explicit outcome
values.
-/

namespace AcdCli

/-! ## Sync engine model (src/cache/sync.py) -/

/-- Modelled from the spec: the db.Folder record of cache/db.py, which is not
present under src/.  The spec (section 3) lists the tracked fields of a folder
record: id, name (nullable only for the root), createdAt, modifiedAt, status.
Two records are identical when all tracked fields are equal, which is the
derived structural equality.  Date strings are kept as parsed (the parse of
iso_date.parse is deterministic, so equal strings parse equally). -/
structure Folder where
  id : String
  name : Option String
  createdDate : String
  modifiedDate : String
  status : String
deriving DecidableEq, Repr

/-- A folder record of the remote listing handed to insert_folders:
the JSON fields read by sync.py lines 31-35 and 49. -/
structure FolderItem where
  id : String
  name : Option String
  createdDate : String
  modifiedDate : String
  status : String
  parents : List String
deriving DecidableEq, Repr

/-- Construction of the db.Folder row from a listing record
(sync.py lines 32-35). -/
def mkFolder (x : FolderItem) : Folder :=
  { id := x.id, name := x.name, createdDate := x.createdDate,
    modifiedDate := x.modifiedDate, status := x.status }

/-- Modelled from the spec: the db.File record of cache/db.py, which is not
present under src/.  Tracked fields per spec section 3: id, name, createdAt,
modifiedAt, md5, size, status; identical means all tracked fields equal. -/
structure File where
  id : String
  name : String
  createdDate : String
  modifiedDate : String
  md5 : String
  size : Nat
  status : String
deriving DecidableEq, Repr

/-- A file record of the remote listing handed to insert_files:
the JSON fields read by sync.py lines 90-95 and 109. -/
structure FileItem where
  id : String
  name : String
  createdDate : String
  modifiedDate : String
  md5 : String
  size : Nat
  status : String
  parents : List String
deriving DecidableEq, Repr

/-- Construction of the db.File row from a listing record
(sync.py lines 91-95). -/
def mkFile (x : FileItem) : File :=
  { id := x.id, name := x.name, createdDate := x.createdDate,
    modifiedDate := x.modifiedDate, md5 := x.md5, size := x.size,
    status := x.status }

/-- The four counters of insert_folders / insert_files. -/
structure SyncCounts where
  ins : Nat
  dup : Nat
  upd : Nat
  dtd : Nat
deriving DecidableEq, Repr

/-- Python exception classes relevant to the commit handlers of sync.py.
IntegrityError is a sqlalchemy.exc class derived from SQLAlchemyError and
Exception; it is not a subclass of the builtin ValueError. -/
inductive PyExc where
  | integrityErr
  | valueErr
  | otherExc
deriving DecidableEq, Repr

/-- Which exceptions an except-IntegrityError clause catches
(sync.py line 62). -/
def PyExc.caughtByIntegrityClause : PyExc → Bool
  | .integrityErr => true
  | _ => false

/-- Which exceptions an except-ValueError clause catches (sync.py line 128).
IntegrityError does not derive from ValueError, so it is not caught. -/
def PyExc.caughtByValueClause : PyExc → Bool
  | .valueErr => true
  | _ => false

/-- The persisted cache: the two record tables and the parentage edge table
(parent id, child id), per spec section 6. -/
structure CacheState where
  folders : List Folder
  files : List File
  parentage : List (String × String)
deriving DecidableEq, Repr

/-- The per-folder loop of insert_folders (sync.py lines 29-49), threading the
session-visible folder table: the query of line 36 autoflushes, so it sees the
adds and deletes of earlier iterations.  A missing row is added (ins); an
existing row is counted dup or upd by record equality and then replaced,
delete-then-add on its primary key (lines 41-47). -/
def folderLoop : List FolderItem → List Folder → SyncCounts →
    List Folder × SyncCounts
  | [], s, c => (s, c)
  | x :: rest, s, c =>
    let f := mkFolder x
    match s.find? (fun ef => ef.id == x.id) with
    | none => folderLoop rest (s ++ [f]) { c with ins := c.ins + 1 }
    | some ef =>
      let c' := if f = ef then { c with dup := c.dup + 1 }
                else { c with upd := c.upd + 1 }
      folderLoop rest (s.filter (fun r => r.id != ef.id) ++ [f]) c'

/-- The full-sync deletion scan of insert_folders (sync.py lines 51-58):
every stored folder whose id does not occur in the listing is deleted. -/
def folderDeleteScan (items : List FolderItem) (s : List Folder) :
    List Folder × Nat :=
  (s.filter (fun r => items.any (fun x => x.id == r.id)),
   (s.filter (fun r => !(items.any (fun x => x.id == r.id)))).length)

/-- One INSERT OR IGNORE into the parentage table (sync.py line 78). -/
def insertOrIgnore (edges : List (String × String)) (e : String × String) :
    List (String × String) :=
  if edges.contains e then edges else edges ++ [e]

/-- The edge inserts of insert_folders (sync.py lines 75-78): for every
listed folder, INSERT OR IGNORE one (parent, child) row per declared parent.
These run on a separate engine connection, outside the session transaction,
and are reached whether the commit succeeded or was rolled back. -/
def insertParentEdges (edges : List (String × String))
    (rels : List (String × List String)) : List (String × String) :=
  rels.foldl (fun es rel =>
    rel.2.foldl (fun es2 p => insertOrIgnore es2 (p, rel.1)) es) edges

/-- Result of one insert_folders or insert_files batch: the committed cache
state, the four counters, an escaped exception if any, and whether
session.rollback was executed. -/
structure SyncResult where
  state : CacheState
  counts : SyncCounts
  raised : Option PyExc
  rolledBack : Bool
  reported : Bool
deriving DecidableEq, Repr

/-- insert_folders (sync.py lines 22-78).  The commit of line 61 either
succeeds (commitExc = none) or raises the given exception; an IntegrityError
is caught, printed and rolled back (lines 62-64), anything else escapes.
After the try block the parentage rows are inserted on a raw connection,
so they survive a rollback; an escaped exception skips them. -/
def insert_folders (items : List FolderItem) (part : Bool)
    (commitExc : Option PyExc) (s : CacheState) : SyncResult :=
  let lc := folderLoop items s.folders ⟨0, 0, 0, 0⟩
  let ds := if !part then folderDeleteScan items lc.1 else (lc.1, 0)
  let counts := { lc.2 with dtd := ds.2 }
  let edges := insertParentEdges s.parentage
    (items.map fun x => (x.id, x.parents))
  match commitExc with
  | none =>
    let s' : CacheState := { s with folders := ds.1, parentage := edges }
    { state := s', counts := counts, raised := none, rolledBack := false,
      reported := false }
  | some e =>
    if e.caughtByIntegrityClause then
      let s' : CacheState := { s with parentage := edges }
      { state := s', counts := counts, raised := none, rolledBack := true,
        reported := true }
    else
      { state := s, counts := counts, raised := some e, rolledBack := false,
        reported := false }

/-- Whether the object built from x is already among the children of folder p,
as loaded from the committed tables (sync.py line 113): the loop of
insert_files runs with autoflush disabled, so relationship loads and queries
see only the committed state.  Membership in the loaded children collection
compares records by the spec-modelled field equality of db.File. -/
def childrenContain (frozenFiles : List File)
    (frozenEdges : List (String × String)) (p : String) (f : File) : Bool :=
  frozenFiles.any (fun r => frozenEdges.contains (p, r.id) && r == f)

/-- The parent-link loop of insert_files (sync.py lines 109-114): for each
declared parent, a parent id that is no known folder is only logged; otherwise
the file is appended to the children of the parent folder unless already
present, which adds one parentage edge at flush time. -/
def linkParents (frozenFiles : List File)
    (frozenEdges : List (String × String)) (folderIds : List String)
    (parents : List String) (f : File) (pe : List (String × String)) :
    List (String × String) :=
  parents.foldl (fun acc p =>
    if folderIds.contains p then
      if childrenContain frozenFiles frozenEdges p f then acc
      else acc ++ [(p, f.id)]
    else acc) pe

/-- The per-file loop of insert_files (sync.py lines 88-114), run under
no_autoflush: the existence query of line 96 and the children loads see the
frozen committed tables, while adds and deletes accumulate as pending state.
Deleting an existing row also deletes its pending parentage rows
(the relationship rows of the deleted object). -/
def fileLoop (frozenFiles : List File) (frozenEdges : List (String × String))
    (folderIds : List String) : List FileItem → List File →
    List (String × String) → SyncCounts →
    List File × List (String × String) × SyncCounts
  | [], pf, pe, c => (pf, pe, c)
  | x :: rest, pf, pe, c =>
    let f := mkFile x
    match frozenFiles.find? (fun ef => ef.id == x.id) with
    | none =>
      fileLoop frozenFiles frozenEdges folderIds rest (pf ++ [f])
        (linkParents frozenFiles frozenEdges folderIds x.parents f pe)
        { c with ins := c.ins + 1 }
    | some ef =>
      let c' := if f = ef then { c with dup := c.dup + 1 }
                else { c with upd := c.upd + 1 }
      fileLoop frozenFiles frozenEdges folderIds rest
        (pf.filter (fun r => r.id != ef.id) ++ [f])
        (linkParents frozenFiles frozenEdges folderIds x.parents f
          (pe.filter (fun e => e.2 != ef.id)))
        c'

/-- The full-sync deletion scan of insert_files (sync.py lines 116-124),
outside the no_autoflush block, so it sees the pending table. -/
def fileDeleteScan (items : List FileItem) (s : List File) :
    List File × Nat :=
  (s.filter (fun r => items.any (fun x => x.id == r.id)),
   (s.filter (fun r => !(items.any (fun x => x.id == r.id)))).length)

/-- insert_files (sync.py lines 82-139).  The commit of line 127 either
succeeds or raises; the handler of line 128 catches ValueError only, so a
ValueError is printed and rolled back while any other exception, in
particular IntegrityError, escapes without a rollback. -/
def insert_files (items : List FileItem) (part : Bool)
    (commitExc : Option PyExc) (s : CacheState) : SyncResult :=
  let folderIds := s.folders.map (·.id)
  let lc := fileLoop s.files s.parentage folderIds items s.files
    s.parentage ⟨0, 0, 0, 0⟩
  let ds := if !part then fileDeleteScan items lc.1 else (lc.1, 0)
  let counts := { lc.2.2 with dtd := ds.2 }
  match commitExc with
  | none =>
    let s' : CacheState := { s with files := ds.1, parentage := lc.2.1 }
    { state := s', counts := counts, raised := none, rolledBack := false,
      reported := false }
  | some e =>
    if e.caughtByValueClause then
      { state := s, counts := counts, raised := none, rolledBack := true,
        reported := true }
    else
      { state := s, counts := counts, raised := some e, rolledBack := false,
        reported := false }

/-- Outcome of a full reconciliation: insert_folders then insert_files,
both with partial = False and successful commits. -/
structure ReconcileResult where
  folderCounts : SyncCounts
  fileCounts : SyncCounts
  state : CacheState
deriving DecidableEq, Repr

/-- A full reconciliation of a fetched listing: insert_folders then
insert_files, both with partial = False (acd_cli sync path). -/
def reconcile (fo : List FolderItem) (fi : List FileItem) (s : CacheState) :
    ReconcileResult :=
  let r1 := insert_folders fo false none s
  let r2 := insert_files fi false none r1.state
  { folderCounts := r1.counts, fileCounts := r2.counts, state := r2.state }

/-! ## Read proxy model (src/acdcli/acd_fuse.py, ReadProxy) -/

/-- Maximal number of opened chunks per file (acd_fuse.py line 21). -/
def MAX_CHUNKS_PER_FILE : Nat := 15

/-- A StreamChunk (acd_fuse.py lines 67-109): a ranged response whose first
available position is offset and whose last contained position is ends; the
closed flag records whether close() was called on the response.  Byte values
are not observable through the proxy interface modelled here, so only
positions are tracked. -/
structure StreamChunk where
  offset : Int
  ends : Int
  closed : Bool
deriving DecidableEq, Repr

/-- Chunk construction (acd_fuse.py lines 73-81): a ranged request starting at
offset whose response announces contentLength bytes, so the last contained
position is offset + contentLength - 1. -/
def StreamChunk.init (offset contentLength : Int) : StreamChunk :=
  { offset := offset, ends := offset + contentLength - 1, closed := false }

/-- has_byte_range (acd_fuse.py lines 83-90): the chunk currently begins at
offset and has at least length bytes remaining. -/
def StreamChunk.hasByteRange (c : StreamChunk) (offset length : Int) : Bool :=
  offset == c.offset && decide (offset + length - 1 ≤ c.ends)

/-- StreamChunk.get (acd_fuse.py lines 92-105): consume up to length bytes
from the current position, advancing it; the third component is true when
fewer than length bytes arrived although the declared end was not reached,
which the source turns into an exception. -/
def StreamChunk.getBytes (c : StreamChunk) (length : Int) :
    StreamChunk × Int × Bool :=
  let received := max 0 (min length (c.ends + 1 - c.offset))
  let c' : StreamChunk := { c with offset := c.offset + received }
  (c', received, decide (received < length) && decide (c'.offset ≤ c.ends))

/-- The chunk search loop of ReadFile.get (acd_fuse.py lines 126-136) on the
reversed deque: chunks are tried most-recently-added first; a matching chunk
is consumed in place, except that a chunk whose get raised is removed and the
search continues. -/
def searchRev (offset length : Int) : List StreamChunk →
    Option (List StreamChunk × Int)
  | [] => none
  | c :: rest =>
    if c.hasByteRange offset length then
      let g := c.getBytes length
      if g.2.2 then searchRev offset length rest
      else some (g.1 :: rest, g.2.1)
    else
      match searchRev offset length rest with
      | none => none
      | some (rest', n) => some (c :: rest', n)

/-- Result of ReadFile.get: the new chunk deque (oldest first), the chunk the
bounded deque evicted on append, if any, the number of bytes served, and
whether a new ranged stream was opened. -/
structure ReadResult where
  chunks : List StreamChunk
  evicted : Option StreamChunk
  served : Int
  openedNew : Bool
deriving DecidableEq, Repr

/-- ReadFile.get (acd_fuse.py lines 122-143).  The deque is kept oldest
first; the search walks it from the most recently added end.  On a miss a new
chunk is opened at offset with the fixed chunk-fetch size, whose response
announces contentLength bytes, and appended to the deque: a deque at its
bound of MAX_CHUNKS_PER_FILE discards its oldest element on append, without
calling close on it. -/
def readFileGet (chunks : List StreamChunk) (offset length : Int)
    (contentLength : Int) : ReadResult :=
  match searchRev offset length chunks.reverse with
  | some (rev', n) =>
    { chunks := rev'.reverse, evicted := none, served := n,
      openedNew := false }
  | none =>
    let g := (StreamChunk.init offset contentLength).getBytes length
    if chunks.length = MAX_CHUNKS_PER_FILE then
      { chunks := chunks.tail ++ [g.1], evicted := chunks.head?,
        served := g.2.1, openedNew := true }
    else
      { chunks := chunks ++ [g.1], evicted := none, served := g.2.1,
        openedNew := true }

/-- ReadFile.clear (acd_fuse.py lines 147-155): every chunk is closed and the
deque is emptied; the first component is the list of closed chunks as they
are discarded. -/
def readFileClear (chunks : List StreamChunk) :
    List StreamChunk × List StreamChunk :=
  (chunks.map (fun c => { c with closed := true }), [])

/-! ## Write proxy model (src/acdcli/acd_fuse.py, WriteProxy) -/

/-- Maximal number of buffered blocks per write stream
(acd_fuse.py line 30). -/
def WRITE_BUFFER_SZ : Nat := 32

/-- A WriteStream (acd_fuse.py lines 180-195): the bounded queue of buffered
blocks (each modelled by its byte length), the expected next-write offset,
the sticky error flag and the closed flag.  Block contents are not observable
through the write path, so a block is tracked as its length. -/
structure WriteStream where
  q : List Nat
  offset : Nat
  error : Bool
  closed : Bool
deriving DecidableEq, Repr

/-- A fresh stream as the defaultdict creates it (acd_fuse.py
lines 186-195). -/
def WriteStream.initial : WriteStream :=
  { q := [], offset := 0, error := false, closed := false }

/-- Outcome of a write call, as the errno of the FuseOSError it raises. -/
inductive WriteOutcome where
  | ok
  | eremoteErr
  | etimedout
  | espipe
deriving DecidableEq, Repr

/-- WriteStream.write (acd_fuse.py lines 197-209): a sticky error fails the
call at once; a full queue fails it with a timeout once the 60 s put timeout
expires, which is the behaviour when the uploader consumes nothing; otherwise
the block is buffered and the offset advances by its length. -/
def WriteStream.write (s : WriteStream) (dataLen : Nat) :
    WriteStream × WriteOutcome :=
  if s.error then (s, .eremoteErr)
  else if WRITE_BUFFER_SZ ≤ s.q.length then (s, .etimedout)
  else ({ s with q := s.q ++ [dataLen], offset := s.offset + dataLen }, .ok)

/-- WriteProxy.write for one handle (acd_fuse.py lines 275-293): a call whose
offset equals the expected one is buffered; any other offset marks the stream
errored and fails with ESPIPE.  The uploader thread spawned at offset 0 only
consumes the queue and is modelled by the explicit consumer steps below. -/
def writeProxyWrite (s : WriteStream) (offset dataLen : Nat) :
    WriteStream × WriteOutcome :=
  if s.offset = offset then s.write dataLen
  else ({ s with error := true }, .espipe)

/-- An event on one write stream: a kernel write call, the uploader draining
the queue (WriteStream.read, acd_fuse.py lines 211-229), or the uploader
failing and setting the sticky error flag (write_n_sync, lines 266-270). -/
inductive WpStep where
  | writeCall (offset dataLen : Nat)
  | drain
  | uploadFail
deriving DecidableEq, Repr

/-- One event applied to a stream, with the outcome of a write call. -/
def wpStep (s : WriteStream) : WpStep → WriteStream × WriteOutcome
  | .writeCall off d => writeProxyWrite s off d
  | .drain => ({ s with q := [] }, .ok)
  | .uploadFail => ({ s with error := true }, .ok)

/-- The number of bytes a step successfully buffers. -/
def wpStepOkBytes (s : WriteStream) (st : WpStep) : Nat :=
  match st with
  | .writeCall _ d => if (wpStep s st).2 = .ok then d else 0
  | _ => 0

/-- A run of events from a fresh stream, also accumulating the total number
of bytes successfully buffered. -/
def wpRun (steps : List WpStep) : WriteStream × Nat :=
  steps.foldl (fun a st => ((wpStep a.1 st).1, a.2 + wpStepOkBytes a.1 st))
    (WriteStream.initial, 0)

/-- The outcomes of a sequence of write calls (offset, length) issued on one
handle, threading the stream state. -/
def wpWriteOutcomes : WriteStream → List (Nat × Nat) → List WriteOutcome
  | _, [] => []
  | s, c :: rest =>
    let r := writeProxyWrite s c.1 c.2
    r.2 :: wpWriteOutcomes r.1 rest

/-! ## Dispatcher model (src/acdcli/acd_fuse.py, ACDFuse) -/

/-- The cache node fields the modelled dispatcher operations read. -/
structure FsNode where
  id : String
  isFile : Bool
  size : Nat
  md5 : String
  description : Option String
deriving DecidableEq, Repr

/-- A POSIX errno raised as a FuseOSError by the dispatcher. -/
inductive Errno where
  | enoent
  | eexist
  | enotdir
  | enodata
  | efault
deriving DecidableEq, Repr

/-- Result of ACDFuse.read: an error, the empty byte string, or a delegation
to the read proxy with node id, offset, length and the node size. -/
inductive ReadCall where
  | failed (e : Errno)
  | empty
  | delegate (id : String) (offset length total : Nat)
deriving DecidableEq, Repr

/-- ACDFuse.read (acd_fuse.py lines 451-462): an unresolved path fails with
ENOENT; a node of size 0, or a request at offset equal to the size, returns
the empty byte string without touching the read proxy; anything else
delegates to the read proxy. -/
def acdRead (resolve : String → Option FsNode) (path : String)
    (length offset : Nat) : ReadCall :=
  match resolve path with
  | none => .failed .enoent
  | some n =>
    if n.size = 0 ∨ n.size = offset then .empty
    else .delegate n.id offset length n.size

/-- The recognized generic extended attribute names, XATTRS.vars()
(acd_fuse.py lines 344-353). -/
def xattrsVars : List String := ["acd.id", "acd.description"]

/-- The recognized file extended attribute names, FXATTRS.vars(), which
inherit the generic ones (acd_fuse.py lines 355-357). -/
def fxattrsVars : List String := ["acd.id", "acd.description", "acd.md5"]

/-- Result of ACDFuse.getxattr: the ENODATA failure, a returned byte string,
or the unhandled AttributeError that dereferencing a missing node raises. -/
inductive XattrResult where
  | enodataErr
  | value (s : String)
  | noneTypeFault
deriving DecidableEq, Repr

/-- ACDFuse.getxattr (acd_fuse.py lines 434-449): a name outside both
recognized sets fails with ENODATA before the path is resolved; only then is
the node looked up and the attribute served. -/
def acdGetxattr (resolve : String → Option FsNode) (path name : String) :
    XattrResult :=
  if ¬ xattrsVars.contains name ∧ ¬ fxattrsVars.contains name then
    .enodataErr
  else
    match resolve path with
    | none => .noneTypeFault
    | some node =>
      if name = "acd.id" then .value node.id
      else if name = "acd.description" then
        .value (node.description.getD "")
      else if name = "acd.md5" then .value node.md5
      else .enodataErr

/-- The value of os.O_APPEND on Linux, 0o2000. -/
def O_APPEND : Nat := 1024

/-- A dispatcher call that may hand out a file handle: open with its flags,
or create, whose outcome depends on whether the parent path resolves and
whether the remote create_file call succeeds. -/
inductive FhOp where
  | openCall (flags : Nat)
  | createCall (parentResolves remoteOk : Bool)
deriving DecidableEq, Repr

/-- The handle counter state of ACDFuse, initialised to 1
(acd_fuse.py lines 376-377). -/
structure FuseState where
  fh : Nat
deriving DecidableEq, Repr

/-- ACDFuse.open (lines 591-602) and ACDFuse.create (lines 519-538) as far as
the handle counter is concerned: open fails on O_APPEND, create fails when
the parent does not resolve or the remote call raises; otherwise the counter
is incremented and its new value returned. -/
def fhStep (s : FuseState) : FhOp → FuseState × Option Nat
  | .openCall flags =>
    if flags &&& O_APPEND = O_APPEND then (s, none)
    else ({ fh := s.fh + 1 }, some (s.fh + 1))
  | .createCall parentResolves remoteOk =>
    if parentResolves then
      if remoteOk then ({ fh := s.fh + 1 }, some (s.fh + 1))
      else (s, none)
    else (s, none)

/-- A session of open and create calls from a fresh mount, collecting the
handles handed out. -/
def fhRun (ops : List FhOp) : FuseState × List Nat :=
  ops.foldl (fun a op =>
    let r := fhStep a.1 op
    (r.1, a.2 ++ r.2.toList)) (⟨1⟩, [])

/-- The os.path.split of a path: the part up to and including the last slash,
then right-stripped of slashes unless it consists only of slashes, and the
part after the last slash. -/
def ospSplit (p : String) : String × String :=
  let r := p.toList.reverse
  let tail := (r.takeWhile (fun c => c ≠ '/')).reverse
  let head := (r.dropWhile (fun c => c ≠ '/')).reverse
  let head' := if head ≠ [] ∧ ¬ head.all (fun c => c = '/') then
      (head.reverse.dropWhile (fun c => c = '/')).reverse
    else head
  (String.mk head', String.mk tail)

/-- os.path.dirname. -/
def ospDirname (p : String) : String := (ospSplit p).1

/-- os.path.basename. -/
def ospBasename (p : String) : String := (ospSplit p).2

/-- A remote mutation or cache upsert performed during a rename, in order. -/
inductive FsAction where
  | trashNode (id : String)
  | renameNode (id name : String)
  | moveNode (id parent : String)
  | upsertNode (id : String)
deriving DecidableEq, Repr

/-- ACDFuse._trash (acd_fuse.py lines 494-509) on the success path of the
remote call: the path is resolved, an unresolved path fails with ENOENT, and
the trash call is followed by the cache upsert of the returned metadata. -/
def trashPath (resolve : String → Option FsNode) (path : String) :
    Except Errno (List FsAction) :=
  match resolve path with
  | none => .error .enoent
  | some n => .ok [.trashNode n.id, .upsertNode n.id]

/-- ACDFuse.rename (acd_fuse.py lines 540-573) with remote calls on their
success path, returning the remote mutations and cache upserts performed, in
order, and the errno raised, if any.  Resolution uses the cache as of call
entry; the only cache change before a later resolution is the trashing of the
destination file, which no later resolved path traverses. -/
def acdRename (resolve : String → Option FsNode) (old new : String) :
    List FsAction × Option Errno :=
  if old = new then ([], none)
  else
    match resolve old with
    | none => ([], some .enoent)
    | some node =>
      let newBn := ospBasename new
      let newDn := ospDirname new
      let oldBn := ospBasename old
      let oldDn := ospDirname old
      let go : List FsAction → List FsAction × Option Errno := fun tacts =>
        let racts := if newBn ≠ oldBn then
            [.renameNode node.id newBn, .upsertNode node.id]
          else []
        if newDn ≠ oldDn then
          match resolve newDn with
          | none => (tacts ++ racts, some .enotdir)
          | some ndir =>
            (tacts ++ racts ++ [.moveNode node.id ndir.id,
              .upsertNode node.id], none)
        else (tacts ++ racts, none)
      match resolve new with
      | some existing =>
        if existing.isFile then
          match trashPath resolve new with
          | .error e => ([], some e)
          | .ok tacts => go tacts
        else ([], some .eexist)
      | none => go []

/-- Whether every remote mutation in the list is immediately followed by the
cache upsert of the same node. -/
def mutationsUpserted : List FsAction → Bool
  | [] => true
  | .upsertNode _ :: rest => mutationsUpserted rest
  | .trashNode i :: .upsertNode j :: rest =>
    i == j && mutationsUpserted rest
  | .renameNode i _ :: .upsertNode j :: rest =>
    i == j && mutationsUpserted rest
  | .moveNode i _ :: .upsertNode j :: rest =>
    i == j && mutationsUpserted rest
  | _ => false

/-! ## Concrete sample data used by witnesses and counterexamples -/

/-- A small folder listing with distinct ids. -/
def sampleFolderItems : List FolderItem :=
  [{ id := "F1", name := none, createdDate := "2014-01-01",
     modifiedDate := "2014-01-01", status := "AVAILABLE", parents := [] },
   { id := "F2", name := some "docs", createdDate := "2014-01-02",
     modifiedDate := "2014-01-02", status := "AVAILABLE",
     parents := ["F1"] },
   { id := "F3", name := some "junk", createdDate := "2014-01-03",
     modifiedDate := "2014-01-03", status := "TRASH", parents := ["F1"] }]

/-- A small file listing with distinct ids. -/
def sampleFileItems : List FileItem :=
  [{ id := "X1", name := "a.txt", createdDate := "2014-02-01",
     modifiedDate := "2014-02-01", md5 := "abc", size := 10,
     status := "AVAILABLE", parents := ["F2"] },
   { id := "X2", name := "b.txt", createdDate := "2014-02-02",
     modifiedDate := "2014-02-02", md5 := "def", size := 20,
     status := "TRASH", parents := ["F2"] }]

/-- A prior cache containing a folder and a file that the sample listings no
longer mention. -/
def sampleState : CacheState :=
  { folders := [⟨"GONEF", some "old", "2013", "2013", "AVAILABLE"⟩],
    files := [⟨"GONEX", "old.txt", "2013", "2013", "0a", 7, "AVAILABLE"⟩],
    parentage := [("GONEF", "GONEX")] }

/-- The sixteen pairwise non-matching read offsets of the chunk eviction
scenario, spaced beyond the chunk span. -/
def evictionOffsets : List Int := (List.range 16).map (fun i => (i : Int) * 10000)

/-- The chunk deque and last evicted chunk after sixteen reads of length 4096
at the offsets above, on a node whose ranged responses announce 8192 bytes,
starting from a fresh ReadFile. -/
def evictionRun : List StreamChunk × Option StreamChunk :=
  evictionOffsets.foldl (fun a o =>
    let r := readFileGet a.1 o 4096 8192
    (r.chunks, r.evicted)) ([], none)

/-- A resolver over a fixed small tree: folder /a holds file /a/x, folder /b
holds file /b/y. -/
def sampleResolve : String → Option FsNode := fun p =>
  if p = "/a/x" then some ⟨"NX", true, 10, "mx", none⟩
  else if p = "/b/y" then some ⟨"NY", true, 5, "my", none⟩
  else if p = "/a" then some ⟨"DA", false, 0, "", none⟩
  else if p = "/b" then some ⟨"DB", false, 0, "", none⟩
  else none

/-- A resolver over an empty tree. -/
def emptyResolve : String → Option FsNode := fun _ => none

/-! ## Sync engine lemmas -/

theorem mkFolder_id (x : FolderItem) : (mkFolder x).id = x.id := rfl

theorem mkFile_id (x : FileItem) : (mkFile x).id = x.id := rfl

theorem beqStrSymm (a b : String) : (a == b) = (b == a) := by
  rw [Bool.eq_iff_iff]
  simp only [beq_iff_eq]
  exact ⟨fun h => h.symm, fun h => h.symm⟩

/-- The folder loop leaves exactly the listed records, appended in listing
order, and the survivors of the prior table whose ids the listing does not
mention. -/
theorem folderLoop_fst_eq (items : List FolderItem) :
    ∀ (s : List Folder) (c : SyncCounts),
    (items.map (·.id)).Nodup →
    (folderLoop items s c).1 =
      s.filter (fun r => !(items.any (fun x => x.id == r.id))) ++
        items.map mkFolder := by
  induction items with
  | nil =>
    intro s c _
    simp [folderLoop]
  | cons x rest ih =>
    intro s c hnd
    simp only [List.map_cons, List.nodup_cons, List.mem_map] at hnd
    obtain ⟨hx, hrest⟩ := hnd
    have hxid : ∀ y ∈ rest, ¬ y.id = x.id := by
      intro y hy hcon
      exact hx ⟨y, hy, hcon⟩
    have h1 : [mkFolder x].filter
        (fun r => !(rest.any (fun y => y.id == r.id))) = [mkFolder x] := by
      have : rest.any (fun y => y.id == (mkFolder x).id) = false := by
        simp only [List.any_eq_false, mkFolder_id, beq_iff_eq]
        exact hxid
      simp [List.filter_cons, this]
    cases hfind : s.find? (fun ef => ef.id == x.id) with
    | none =>
      have hnone := List.find?_eq_none.mp hfind
      simp only [folderLoop, hfind]
      rw [ih _ _ hrest, List.filter_append, h1]
      have h2 : s.filter (fun r => !(rest.any (fun y => y.id == r.id))) =
          s.filter (fun r => !((x :: rest).any (fun y => y.id == r.id))) := by
        apply List.filter_congr
        intro r hr
        have hfr : (x.id == r.id) = false := by
          have hne := hnone r hr
          rw [Bool.not_eq_true] at hne
          rw [beqStrSymm]
          exact hne
        simp [List.any_cons, hfr]
      rw [h2]
      simp
    | some ef =>
      have hef : ef.id = x.id := by
        have h := List.find?_some hfind
        simpa [beq_iff_eq] using h
      simp only [folderLoop, hfind]
      rw [ih _ _ hrest, List.filter_append, h1, List.filter_filter]
      have h2 : s.filter (fun a => (!(rest.any (fun y => y.id == a.id))) &&
          (a.id != ef.id)) =
          s.filter (fun r => !((x :: rest).any (fun y => y.id == r.id))) := by
        apply List.filter_congr
        intro r hr
        simp only [List.any_cons, Bool.not_or, hef, bne]
        rw [beqStrSymm r.id x.id, Bool.and_comm]
      rw [h2]
      simp

/-- The records of the listing all survive the deletion scan. -/
theorem filter_listed_folders (items : List FolderItem) :
    (items.map mkFolder).filter
      (fun r => items.any (fun x => x.id == r.id)) = items.map mkFolder := by
  apply List.filter_eq_self.mpr
  intro a ha
  obtain ⟨y, hy, rfl⟩ := List.mem_map.mp ha
  apply List.any_eq_true.mpr
  exact ⟨y, hy, by simp [mkFolder_id]⟩

/-- After a full insert_folders with a successful commit, the folder table is
exactly the listing, in listing order. -/
theorem insert_folders_full_folders (items : List FolderItem) (s : CacheState)
    (hnd : (items.map (·.id)).Nodup) :
    (insert_folders items false none s).state.folders = items.map mkFolder := by
  simp only [insert_folders, Bool.not_false, if_true, folderDeleteScan]
  rw [folderLoop_fst_eq items s.folders ⟨0, 0, 0, 0⟩ hnd]
  rw [List.filter_append, List.filter_filter, filter_listed_folders]
  have hA : s.folders.filter (fun a => (items.any (fun x => x.id == a.id)) &&
      !(items.any (fun x => x.id == a.id))) = [] := by
    simp [Bool.and_not_self]
  rw [hA]
  simp

/-- Running the folder loop over a table that is exactly the listing counts
every record as a duplicate and cycles the table back to itself. -/
theorem folderLoop_cycle (items : List FolderItem) :
    ∀ (acc : List Folder) (c : SyncCounts),
    (items.map (·.id) ++ acc.map (·.id)).Nodup →
    folderLoop items (items.map mkFolder ++ acc) c =
      (acc ++ items.map mkFolder, { c with dup := c.dup + items.length }) := by
  induction items with
  | nil =>
    intro acc c _
    simp [folderLoop]
  | cons x rest ih =>
    intro acc c hnd
    simp only [List.map_cons, List.cons_append, List.nodup_cons] at hnd
    obtain ⟨hx, hrest⟩ := hnd
    have hfind : (mkFolder x :: (rest.map mkFolder ++ acc)).find?
        (fun ef => ef.id == x.id) = some (mkFolder x) :=
      List.find?_cons_of_pos _ (by simp [mkFolder_id])
    simp only [folderLoop, List.map_cons, List.cons_append, hfind, if_pos rfl]
    have hkeep : (rest.map mkFolder ++ acc).filter
        (fun r => r.id != (mkFolder x).id) = rest.map mkFolder ++ acc := by
      apply List.filter_eq_self.mpr
      intro a ha
      have hane : ¬ a.id = x.id := by
        intro hcon
        apply hx
        rcases List.mem_append.mp ha with h | h
        · obtain ⟨y, hy, rfl⟩ := List.mem_map.mp h
          exact List.mem_append.mpr (Or.inl (List.mem_map.mpr ⟨y, hy,
            by rw [← hcon]; rfl⟩))
        · exact List.mem_append.mpr (Or.inr (List.mem_map.mpr ⟨a, h, hcon⟩))
      simp [mkFolder_id, bne, hane]
    have hstep : (mkFolder x :: (rest.map mkFolder ++ acc)).filter
        (fun r => r.id != (mkFolder x).id) ++ [mkFolder x] =
        rest.map mkFolder ++ (acc ++ [mkFolder x]) := by
      simp [List.filter_cons, hkeep, List.append_assoc]
    rw [hstep]
    have hnd' : (rest.map (·.id) ++ (acc ++ [mkFolder x]).map (·.id)).Nodup := by
      have hperm : ((rest.map (·.id) ++ acc.map (·.id)) ++ [x.id]).Perm
          (x.id :: (rest.map (·.id) ++ acc.map (·.id))) :=
        List.perm_append_singleton _ _
      have : ((rest.map (·.id) ++ acc.map (·.id)) ++ [x.id]).Nodup :=
        hperm.symm.nodup (by exact List.nodup_cons.mpr ⟨hx, hrest⟩)
      simpa [List.map_append, mkFolder_id, List.append_assoc] using this
    rw [ih (acc ++ [mkFolder x]) _ hnd']
    simp only [Prod.mk.injEq]
    constructor
    · simp
    · simp only [SyncCounts.mk.injEq]
      refine ⟨rfl, ?_, rfl, rfl⟩
      simp [List.length_cons]
      omega

/-- No record of the listing is caught by the deletion scan. -/
theorem filter_unlisted_folders (items : List FolderItem) :
    (items.map mkFolder).filter
      (fun r => !(items.any (fun x => x.id == r.id))) = [] := by
  apply List.filter_eq_nil_iff.mpr
  intro a ha
  obtain ⟨y, hy, rfl⟩ := List.mem_map.mp ha
  have hany : items.any (fun x => x.id == (mkFolder y).id) = true :=
    List.any_eq_true.mpr ⟨y, hy, by simp [mkFolder_id]⟩
  simp [hany]

/-- A second full insert_folders over its own output counts every listed
record as a duplicate, with nothing inserted, updated or deleted, and leaves
the folder table unchanged. -/
theorem insert_folders_second (items : List FolderItem) (s : CacheState)
    (hnd : (items.map (·.id)).Nodup)
    (hs : s.folders = items.map mkFolder) :
    (insert_folders items false none s).counts = ⟨0, items.length, 0, 0⟩ ∧
    (insert_folders items false none s).state.folders = items.map mkFolder := by
  have hcyc := folderLoop_cycle items [] ⟨0, 0, 0, 0⟩ (by simpa using hnd)
  simp only [List.append_nil, List.nil_append] at hcyc
  simp only [insert_folders, Bool.not_false, if_true, folderDeleteScan, hs,
    hcyc, filter_listed_folders, filter_unlisted_folders]
  constructor
  · simp
  · simp

/-! ### File-side lemmas -/

theorem find?_map_mkFile (items : List FileItem) (x : FileItem)
    (hmem : x ∈ items) (hnd : (items.map (·.id)).Nodup) :
    (items.map mkFile).find? (fun ef => ef.id == x.id) = some (mkFile x) := by
  induction items with
  | nil => cases hmem
  | cons y rest ih =>
    have hnd' := hnd
    simp only [List.map_cons, List.nodup_cons] at hnd'
    obtain ⟨hy, hrest⟩ := hnd'
    rcases List.mem_cons.mp hmem with rfl | hmem'
    · exact List.find?_cons_of_pos _ (by simp [mkFile_id])
    · have hneg : ¬ ((mkFile y).id == x.id) = true := by
        simp only [mkFile_id, beq_iff_eq]
        intro hcon
        exact hy (hcon ▸ List.mem_map.mpr ⟨x, hmem', rfl⟩)
      rw [List.map_cons, @List.find?_cons_of_neg _ (fun ef => ef.id == x.id)
        (mkFile y) (List.map mkFile rest) hneg, ih hmem' hrest]

/-- The file loop leaves the listed records, appended in listing order, after
the survivors of the prior pending table: a pending record is removed exactly
when some listed id matches it and is also present in the frozen committed
table the existence query consults. -/
theorem fileLoop_records (frozenFiles : List File)
    (frozenEdges : List (String × String)) (folderIds : List String)
    (items : List FileItem) :
    ∀ (pf : List File) (pe : List (String × String)) (c : SyncCounts),
    (items.map (·.id)).Nodup →
    (fileLoop frozenFiles frozenEdges folderIds items pf pe c).1 =
      pf.filter (fun r => !(items.any (fun x => x.id == r.id &&
        frozenFiles.any (fun t => t.id == x.id)))) ++ items.map mkFile := by
  induction items with
  | nil =>
    intro pf pe c _
    simp [fileLoop]
  | cons x rest ih =>
    intro pf pe c hnd
    simp only [List.map_cons, List.nodup_cons, List.mem_map] at hnd
    obtain ⟨hx, hrest⟩ := hnd
    have hxid : ∀ y ∈ rest, ¬ y.id = x.id := by
      intro y hy hcon
      exact hx ⟨y, hy, hcon⟩
    have h1 : [mkFile x].filter (fun r => !(rest.any (fun y => y.id == r.id &&
        frozenFiles.any (fun t => t.id == y.id)))) = [mkFile x] := by
      have hany : rest.any (fun y => y.id == (mkFile x).id &&
          frozenFiles.any (fun t => t.id == y.id)) = false := by
        apply List.any_eq_false.mpr
        intro y hy
        simp only [mkFile_id, beq_iff_eq, Bool.and_eq_true, not_and]
        intro hcon
        exact absurd hcon (hxid y hy)
      simp [List.filter_cons, hany]
    cases hfind : frozenFiles.find? (fun ef => ef.id == x.id) with
    | none =>
      have hfroz : frozenFiles.any (fun t => t.id == x.id) = false :=
        List.any_eq_false.mpr (List.find?_eq_none.mp hfind)
      simp only [fileLoop, hfind]
      rw [ih _ _ _ hrest, List.filter_append, h1]
      have h2 : pf.filter (fun r => !(rest.any (fun y => y.id == r.id &&
          frozenFiles.any (fun t => t.id == y.id)))) =
          pf.filter (fun r => !((x :: rest).any (fun y => y.id == r.id &&
            frozenFiles.any (fun t => t.id == y.id)))) := by
        apply List.filter_congr
        intro r hr
        simp [List.any_cons, hfroz]
      rw [h2]
      simp
    | some ef =>
      have hef : ef.id = x.id := by
        have h := List.find?_some hfind
        simpa [beq_iff_eq] using h
      have hfroz : frozenFiles.any (fun t => t.id == x.id) = true :=
        List.any_eq_true.mpr ⟨ef, List.mem_of_find?_eq_some hfind,
          by simp [hef]⟩
      simp only [fileLoop, hfind]
      rw [ih _ _ _ hrest, List.filter_append, h1, List.filter_filter]
      have h2 : pf.filter (fun a => (!(rest.any (fun y => y.id == a.id &&
          frozenFiles.any (fun t => t.id == y.id)))) && (a.id != ef.id)) =
          pf.filter (fun r => !((x :: rest).any (fun y => y.id == r.id &&
            frozenFiles.any (fun t => t.id == y.id)))) := by
        apply List.filter_congr
        intro r hr
        simp only [List.any_cons, Bool.not_or, hef, bne, hfroz,
          Bool.and_true]
        rw [beqStrSymm r.id x.id, Bool.and_comm]
      rw [h2]
      simp

/-- Over a frozen table that is exactly the listing, every processed record
is classified as a duplicate. -/
theorem fileLoop_cycle_counts (items : List FileItem)
    (frozenEdges : List (String × String)) (folderIds : List String)
    (rest : List FileItem) :
    ∀ (pf : List File) (pe : List (String × String)) (c : SyncCounts),
    (∀ y ∈ rest, y ∈ items) →
    (items.map (·.id)).Nodup →
    (fileLoop (items.map mkFile) frozenEdges folderIds rest pf pe c).2.2 =
      { c with dup := c.dup + rest.length } := by
  induction rest with
  | nil =>
    intro pf pe c _ _
    simp [fileLoop]
  | cons x rs ih =>
    intro pf pe c hsub hnd
    have hfind := find?_map_mkFile items x (hsub x (List.mem_cons_self x rs))
      hnd
    simp only [fileLoop, hfind]
    rw [if_pos trivial, ih _ _ _
      (fun y hy => hsub y (List.mem_cons_of_mem _ hy)) hnd]
    simp only [SyncCounts.mk.injEq, List.length_cons, and_true, true_and]
    omega

/-- The listed file records all survive the deletion scan. -/
theorem filter_listed_files (items : List FileItem) :
    (items.map mkFile).filter
      (fun r => items.any (fun x => x.id == r.id)) = items.map mkFile := by
  apply List.filter_eq_self.mpr
  intro a ha
  obtain ⟨y, hy, rfl⟩ := List.mem_map.mp ha
  apply List.any_eq_true.mpr
  exact ⟨y, hy, by simp [mkFile_id]⟩

/-- No listed file record is caught by the deletion scan. -/
theorem filter_unlisted_files (items : List FileItem) :
    (items.map mkFile).filter
      (fun r => !(items.any (fun x => x.id == r.id))) = [] := by
  apply List.filter_eq_nil_iff.mpr
  intro a ha
  obtain ⟨y, hy, rfl⟩ := List.mem_map.mp ha
  have hany : items.any (fun x => x.id == (mkFile y).id) = true :=
    List.any_eq_true.mpr ⟨y, hy, by simp [mkFile_id]⟩
  simp [hany]

/-- Every record of a table equal to the frozen listing is replaced by the
loop, leaving no survivor in front of the re-appended listing. -/
theorem filter_replaced_files (items : List FileItem) :
    (items.map mkFile).filter (fun r => !(items.any (fun x => x.id == r.id &&
      (items.map mkFile).any (fun t => t.id == x.id)))) = [] := by
  apply List.filter_eq_nil_iff.mpr
  intro a ha
  obtain ⟨y, hy, rfl⟩ := List.mem_map.mp ha
  have hany : items.any (fun x => x.id == (mkFile y).id &&
      (items.map mkFile).any (fun t => t.id == x.id)) = true := by
    apply List.any_eq_true.mpr
    refine ⟨y, hy, ?_⟩
    simp only [mkFile_id, beq_self_eq_true, Bool.true_and]
    exact List.any_eq_true.mpr ⟨mkFile y, List.mem_map.mpr ⟨y, hy, rfl⟩,
      by simp [mkFile_id]⟩
  simp [hany]

/-- After a full insert_files with a successful commit, the file table is
exactly the listing, in listing order. -/
theorem insert_files_full_files (items : List FileItem) (s : CacheState)
    (hnd : (items.map (·.id)).Nodup) :
    (insert_files items false none s).state.files = items.map mkFile := by
  simp only [insert_files, Bool.not_false, if_true, fileDeleteScan]
  rw [fileLoop_records s.files s.parentage (s.folders.map (·.id)) items
    s.files s.parentage ⟨0, 0, 0, 0⟩ hnd]
  rw [List.filter_append, List.filter_filter, filter_listed_files]
  have hA : s.files.filter (fun a => (items.any (fun x => x.id == a.id)) &&
      !(items.any (fun x => x.id == a.id &&
        s.files.any (fun t => t.id == x.id)))) = [] := by
    apply List.filter_eq_nil_iff.mpr
    intro a ha hcon
    rw [Bool.and_eq_true] at hcon
    obtain ⟨h1, h2⟩ := hcon
    rw [Bool.not_eq_true'] at h2
    obtain ⟨x, hx, hxa⟩ := List.any_eq_true.mp h1
    apply List.any_eq_false.mp h2 x hx
    rw [Bool.and_eq_true]
    refine ⟨hxa, List.any_eq_true.mpr ⟨a, ha, ?_⟩⟩
    rw [beqStrSymm]
    exact hxa
  rw [hA]
  simp

/-- A second full insert_files over its own output counts every listed record
as a duplicate, with nothing inserted, updated or deleted, and leaves the
file table unchanged. -/
theorem insert_files_second (items : List FileItem) (s : CacheState)
    (hnd : (items.map (·.id)).Nodup)
    (hs : s.files = items.map mkFile) :
    (insert_files items false none s).counts = ⟨0, items.length, 0, 0⟩ ∧
    (insert_files items false none s).state.files = items.map mkFile := by
  have hc := fileLoop_cycle_counts items s.parentage (s.folders.map (·.id))
    items (items.map mkFile) s.parentage ⟨0, 0, 0, 0⟩ (fun y hy => hy) hnd
  have hr := fileLoop_records (items.map mkFile) s.parentage
    (s.folders.map (·.id)) items (items.map mkFile) s.parentage
    ⟨0, 0, 0, 0⟩ hnd
  rw [filter_replaced_files, List.nil_append] at hr
  simp only [insert_files, Bool.not_false, if_true, fileDeleteScan, hs, hc,
    hr, filter_listed_files, filter_unlisted_files]
  constructor
  · simp
  · simp

/-- insert_files never touches the folder table. -/
theorem insert_files_keeps_folders (items : List FileItem) (part : Bool)
    (ce : Option PyExc) (s : CacheState) :
    (insert_files items part ce s).state.folders = s.folders := by
  cases ce with
  | none => rfl
  | some e => cases e <;> rfl

/-- insert_folders never touches the file table. -/
theorem insert_folders_keeps_files (items : List FolderItem) (part : Bool)
    (ce : Option PyExc) (s : CacheState) :
    (insert_folders items part ce s).state.files = s.files := by
  cases ce with
  | none => rfl
  | some e => cases e <;> rfl

/-! ## Claim theorems for the sync engine -/

/-- Claim C1: running the full reconciliation (insert_folders then
insert_files, both with partial = False) a second time with the exact same
listing as an immediately preceding run produces zero inserted, zero updated
and zero deleted records on the second run: every record in the listing is
classified as a duplicate and no stored record is pruned, for folder and file
batches alike, and the record tables are unchanged by the second run. -/
theorem reconcile_idempotent_second_run (fo : List FolderItem)
    (fi : List FileItem) (s : CacheState)
    (hfo : (fo.map (·.id)).Nodup) (hfi : (fi.map (·.id)).Nodup) :
    (reconcile fo fi (reconcile fo fi s).state).folderCounts =
      ⟨0, fo.length, 0, 0⟩ ∧
    (reconcile fo fi (reconcile fo fi s).state).fileCounts =
      ⟨0, fi.length, 0, 0⟩ ∧
    (reconcile fo fi (reconcile fo fi s).state).state.folders =
      (reconcile fo fi s).state.folders ∧
    (reconcile fo fi (reconcile fo fi s).state).state.files =
      (reconcile fo fi s).state.files := by
  simp only [reconcile]
  have h1 : (insert_folders fo false none s).state.folders =
      fo.map mkFolder := insert_folders_full_folders fo s hfo
  have h2 : (insert_files fi false none
      (insert_folders fo false none s).state).state.files =
      fi.map mkFile := insert_files_full_files fi _ hfi
  have h3 : (insert_files fi false none
      (insert_folders fo false none s).state).state.folders =
      fo.map mkFolder := by
    rw [insert_files_keeps_folders]
    exact h1
  have h4 := insert_folders_second fo (insert_files fi false none
    (insert_folders fo false none s).state).state hfo h3
  have h5 : (insert_folders fo false none (insert_files fi false none
      (insert_folders fo false none s).state).state).state.files =
      fi.map mkFile := by
    rw [insert_folders_keeps_files]
    exact h2
  have h6 := insert_files_second fi _ hfi h5
  refine ⟨h4.1, h6.1, ?_, ?_⟩
  · rw [insert_files_keeps_folders, h4.2, h3]
  · rw [h6.2, h2]

/-- Witness for claim C1 at the concrete sample listing and prior cache. -/
theorem reconcile_idempotent_second_run_witness :
    (reconcile sampleFolderItems sampleFileItems
      (reconcile sampleFolderItems sampleFileItems
        sampleState).state).folderCounts =
      ⟨0, sampleFolderItems.length, 0, 0⟩ ∧
    (reconcile sampleFolderItems sampleFileItems
      (reconcile sampleFolderItems sampleFileItems
        sampleState).state).fileCounts =
      ⟨0, sampleFileItems.length, 0, 0⟩ ∧
    (reconcile sampleFolderItems sampleFileItems
      (reconcile sampleFolderItems sampleFileItems
        sampleState).state).state.folders =
      (reconcile sampleFolderItems sampleFileItems
        sampleState).state.folders ∧
    (reconcile sampleFolderItems sampleFileItems
      (reconcile sampleFolderItems sampleFileItems
        sampleState).state).state.files =
      (reconcile sampleFolderItems sampleFileItems sampleState).state.files :=
  reconcile_idempotent_second_run sampleFolderItems sampleFileItems
    sampleState (by decide) (by decide)

/-- Claim C2: after a full sync (partial = False) the ids present in each
record table are exactly the ids of the fresh listing.  A previously stored
node absent from the listing is deleted; a node whose status is TRASH but
which still appears in the listing is retained; presence after the sync
depends only on membership of the id in the listing, never on the trash
status. -/
theorem full_sync_deletes_only_absent_ids (fo : List FolderItem)
    (fi : List FileItem) (s : CacheState) (X : Folder) (Y : File)
    (hXmem : X ∈ s.folders) (hYmem : Y ∈ s.files)
    (hfo : (fo.map (·.id)).Nodup) (hfi : (fi.map (·.id)).Nodup) :
    (¬ X.id ∈ fo.map (·.id) →
      ¬ X.id ∈ (insert_folders fo false none s).state.folders.map (·.id)) ∧
    (X.status = "TRASH" → X.id ∈ fo.map (·.id) →
      X.id ∈ (insert_folders fo false none s).state.folders.map (·.id)) ∧
    (∀ i, i ∈ (insert_folders fo false none s).state.folders.map (·.id) ↔
      i ∈ fo.map (·.id)) ∧
    (¬ Y.id ∈ fi.map (·.id) →
      ¬ Y.id ∈ (insert_files fi false none s).state.files.map (·.id)) ∧
    (Y.status = "TRASH" → Y.id ∈ fi.map (·.id) →
      Y.id ∈ (insert_files fi false none s).state.files.map (·.id)) ∧
    (∀ i, i ∈ (insert_files fi false none s).state.files.map (·.id) ↔
      i ∈ fi.map (·.id)) := by
  have hfo1 : (insert_folders fo false none s).state.folders.map (·.id) =
      fo.map (·.id) := by
    rw [insert_folders_full_folders fo s hfo, List.map_map]
    rfl
  have hfi1 : (insert_files fi false none s).state.files.map (·.id) =
      fi.map (·.id) := by
    rw [insert_files_full_files fi s hfi, List.map_map]
    rfl
  rw [hfo1, hfi1]
  exact ⟨fun h => h, fun _ h => h, fun _ => Iff.rfl,
    fun h => h, fun _ h => h, fun _ => Iff.rfl⟩

/-- Witness for claim C2: the folder GONEF of the prior cache is absent from
the sample listing and is pruned by the full sync. -/
theorem full_sync_deletes_only_absent_ids_witness :
    ¬ (("GONEF" : String)) ∈ (insert_folders sampleFolderItems false none
      sampleState).state.folders.map (·.id) :=
  (full_sync_deletes_only_absent_ids sampleFolderItems sampleFileItems
    sampleState ⟨"GONEF", some "old", "2013", "2013", "AVAILABLE"⟩
    ⟨"GONEX", "old.txt", "2013", "2013", "0a", 7, "AVAILABLE"⟩
    (by decide) (by decide) (by decide) (by decide)).1 (by decide)

/-- Claim C3, settled as a code bug: on a constraint violation during commit,
the insert_folders batch is rolled back and reported, but the insert_files
handler catches ValueError while the commit raises IntegrityError, which is
no ValueError, so the exception escapes insert_files, nothing is reported and
session.rollback never runs for the file batch. -/
theorem insert_files_integrity_error_not_rolled_back :
    (insert_files sampleFileItems false (some PyExc.integrityErr)
      sampleState).raised = some PyExc.integrityErr ∧
    (insert_files sampleFileItems false (some PyExc.integrityErr)
      sampleState).rolledBack = false ∧
    (insert_files sampleFileItems false (some PyExc.integrityErr)
      sampleState).reported = false ∧
    (insert_folders sampleFolderItems false (some PyExc.integrityErr)
      sampleState).rolledBack = true ∧
    (insert_folders sampleFolderItems false (some PyExc.integrityErr)
      sampleState).reported = true ∧
    (insert_folders sampleFolderItems false (some PyExc.integrityErr)
      sampleState).state.folders = sampleState.folders :=
  ⟨rfl, rfl, rfl, rfl, rfl, rfl⟩

/-! ## Write proxy theorems -/

/-- One write-proxy event changes the expected offset by exactly the number
of bytes it successfully buffers: a successful write advances it by the
length of its data, every failing write and every uploader event leaves it
unchanged. -/
theorem wpStep_offset (s : WriteStream) (st : WpStep) :
    (wpStep s st).1.offset = s.offset + wpStepOkBytes s st := by
  cases st with
  | drain => rfl
  | uploadFail => rfl
  | writeCall off d =>
    simp only [wpStep, wpStepOkBytes, writeProxyWrite, WriteStream.write]
    by_cases hoff : s.offset = off
    · by_cases herr : s.error = true
      · simp [hoff, herr]
      · rw [Bool.not_eq_true] at herr
        by_cases hfull : WRITE_BUFFER_SZ ≤ s.q.length
        · simp [hoff, herr, hfull]
        · simp [hoff, herr, hfull]
    · simp [hoff]

/-- A stream whose sticky error flag is set never accepts another write and
keeps the flag set. -/
theorem writeProxyWrite_error_sticky (s : WriteStream) (off d : Nat)
    (herr : s.error = true) :
    (writeProxyWrite s off d).2 ≠ WriteOutcome.ok ∧
    (writeProxyWrite s off d).1.error = true := by
  simp only [writeProxyWrite, WriteStream.write]
  by_cases hoff : s.offset = off
  · simp [hoff, herr]
  · simp [hoff, herr]

/-- Claim C4: a write whose offset is not the expected next-write offset
fails with the invalid-seek error ESPIPE and sets the sticky error flag;
once the flag is set every subsequent write call on the handle fails; a
write at offset 4096 on a fresh stream fails with ESPIPE; a write at
offset 0 followed by one at the first write's length both succeed. -/
theorem write_requires_sequential_offset (s : WriteStream) (off d : Nat)
    (calls : List (Nat × Nat)) (dOne dTwo : Nat) (hoff : off ≠ s.offset) :
    (writeProxyWrite s off d =
      ({ s with error := true }, WriteOutcome.espipe)) ∧
    (∀ s', s'.error = true →
      ∀ r ∈ wpWriteOutcomes s' calls, r ≠ WriteOutcome.ok) ∧
    (writeProxyWrite WriteStream.initial 4096 d =
      ({ WriteStream.initial with error := true }, WriteOutcome.espipe)) ∧
    (wpWriteOutcomes WriteStream.initial [(0, dOne), (dOne, dTwo)] =
      [WriteOutcome.ok, WriteOutcome.ok]) := by
  refine ⟨?_, ?_, ?_, ?_⟩
  · simp only [writeProxyWrite]
    rw [if_neg (fun hcon => hoff hcon.symm)]
  · intro s' herr'
    clear hoff
    induction calls generalizing s' with
    | nil => intro r hr; cases hr
    | cons cna rest ih =>
      intro r hr
      simp only [wpWriteOutcomes] at hr
      rcases List.mem_cons.mp hr with rfl | hr'
      · exact (writeProxyWrite_error_sticky s' cna.1 cna.2 herr').1
      · exact ih _ (writeProxyWrite_error_sticky s' cna.1 cna.2 herr').2 _ hr'
  · simp only [writeProxyWrite, WriteStream.initial]
    rw [if_neg]
    intro hcon
    exact absurd hcon.symm (by decide)
  · simp [wpWriteOutcomes, writeProxyWrite, WriteStream.write,
      WriteStream.initial, WRITE_BUFFER_SZ]

/-- Witness for claim C4 at a concrete stream and call sequence. -/
theorem write_requires_sequential_offset_witness :
    writeProxyWrite WriteStream.initial 4096 3 =
      ({ WriteStream.initial with error := true }, WriteOutcome.espipe) :=
  (write_requires_sequential_offset WriteStream.initial 4096 3 [(0, 1)] 7 2
    (by decide)).1

/-- Claim C8: after any sequence of events on a write stream the expected
next-write offset equals the total number of bytes successfully buffered:
each event moves the offset by exactly the bytes it buffers, so a successful
write advances it by its data length and a failed write, a drain or an
uploader failure leaves it unchanged. -/
theorem write_offset_tracks_buffered_bytes (steps : List WpStep)
    (s : WriteStream) (st : WpStep) :
    ((wpRun steps).1.offset = (wpRun steps).2) ∧
    ((wpStep s st).1.offset = s.offset + wpStepOkBytes s st) := by
  refine ⟨?_, wpStep_offset s st⟩
  have key : ∀ (l : List WpStep) (a : WriteStream × Nat),
      a.1.offset = a.2 →
      (l.foldl (fun a st => ((wpStep a.1 st).1, a.2 + wpStepOkBytes a.1 st))
        a).1.offset =
      (l.foldl (fun a st => ((wpStep a.1 st).1, a.2 + wpStepOkBytes a.1 st))
        a).2 := by
    intro l
    induction l with
    | nil => intro a ha; exact ha
    | cons st' rest ih =>
      intro a ha
      apply ih
      rw [wpStep_offset, ha]
  exact key steps (WriteStream.initial, 0) rfl

/-! ## Dispatcher theorems -/

/-- Claim C7: on a path resolving to a node, a read returns the empty byte
string without delegating to the read proxy exactly when the node size is
zero or the offset equals the size, and otherwise delegates the node id,
offset, length and size to the read proxy. -/
theorem read_zero_short_circuit (resolve : String → Option FsNode)
    (path : String) (length offset : Nat) (n : FsNode)
    (hres : resolve path = some n) :
    ((n.size = 0 ∨ offset = n.size) →
      acdRead resolve path length offset = ReadCall.empty) ∧
    (¬ n.size = 0 → ¬ offset = n.size →
      acdRead resolve path length offset =
        ReadCall.delegate n.id offset length n.size) := by
  constructor
  · intro h
    simp only [acdRead, hres]
    rcases h with h | h
    · rw [if_pos (Or.inl h)]
    · rw [if_pos (Or.inr h.symm)]
  · intro h1 h2
    simp only [acdRead, hres]
    rw [if_neg]
    intro hcon
    rcases hcon with h | h
    · exact h1 h
    · exact h2 h.symm

/-- Witness for claim C7: reading /a/x (size 10) at offset 10 returns the
empty byte string, at offset 0 it delegates to the read proxy. -/
theorem read_zero_short_circuit_witness :
    acdRead sampleResolve "/a/x" 4096 10 = ReadCall.empty ∧
    acdRead sampleResolve "/a/x" 4096 0 =
      ReadCall.delegate "NX" 0 4096 10 :=
  ⟨(read_zero_short_circuit sampleResolve "/a/x" 4096 10 ⟨"NX", true, 10,
      "mx", none⟩ (by decide)).1 (Or.inr (by decide)),
   (read_zero_short_circuit sampleResolve "/a/x" 4096 0 ⟨"NX", true, 10,
      "mx", none⟩ (by decide)).2 (by decide) (by decide)⟩

/-- Each open or create call either hands out no handle and leaves the
counter alone, or increments the counter and returns its new value. -/
theorem fhStep_cases (s : FuseState) (op : FhOp) :
    fhStep s op = (s, none) ∨
    fhStep s op = (⟨s.fh + 1⟩, some (s.fh + 1)) := by
  cases op with
  | openCall flags =>
    by_cases hap : flags &&& O_APPEND = O_APPEND
    · left
      simp [fhStep, hap]
    · right
      simp [fhStep, hap]
  | createCall pr ok =>
    cases pr
    · left
      simp [fhStep]
    · cases ok
      · left
        simp [fhStep]
      · right
        simp [fhStep]

/-- Claim C9: over any session of open and create calls starting from a
fresh mount, whose handle counter starts at 1 and is incremented before each
return, the returned handles are strictly increasing, hence pairwise
distinct, and all exceed 1. -/
theorem handles_never_reused (ops : List FhOp) :
    (fhRun ops).2.Pairwise (· < ·) ∧ (fhRun ops).2.Nodup ∧
    ∀ h ∈ (fhRun ops).2, 1 < h := by
  have key : ∀ (l : List FhOp) (a : FuseState × List Nat),
      (∀ h ∈ a.2, h ≤ a.1.fh) → a.2.Pairwise (· < ·) →
      (∀ h ∈ a.2, 1 < h) → 1 ≤ a.1.fh →
      (∀ h ∈ (l.foldl (fun a op =>
          let r := fhStep a.1 op
          (r.1, a.2 ++ r.2.toList)) a).2,
        h ≤ (l.foldl (fun a op =>
          let r := fhStep a.1 op
          (r.1, a.2 ++ r.2.toList)) a).1.fh) ∧
      ((l.foldl (fun a op =>
          let r := fhStep a.1 op
          (r.1, a.2 ++ r.2.toList)) a).2.Pairwise (· < ·)) ∧
      (∀ h ∈ (l.foldl (fun a op =>
          let r := fhStep a.1 op
          (r.1, a.2 ++ r.2.toList)) a).2, 1 < h) := by
    intro l
    induction l with
    | nil =>
      intro a h1 h2 h3 _
      exact ⟨h1, h2, h3⟩
    | cons op rest ih =>
      intro a h1 h2 h3 h4
      rw [List.foldl_cons]
      rcases fhStep_cases a.1 op with hstep | hstep
      · simp only [hstep, Option.toList_none, List.append_nil]
        exact ih (a.1, a.2) h1 h2 h3 h4
      · simp only [hstep, Option.toList_some]
        refine ih _ ?_ ?_ ?_ ?_
        · intro h hmem
          rcases List.mem_append.mp hmem with hm | hm
          · exact Nat.le_succ_of_le (h1 h hm)
          · rw [List.mem_singleton.mp hm]
        · rw [List.pairwise_append]
          refine ⟨h2, List.pairwise_singleton _ _, ?_⟩
          intro x hx y hy
          rw [List.mem_singleton.mp hy]
          exact Nat.lt_succ_of_le (h1 x hx)
        · intro h hmem
          rcases List.mem_append.mp hmem with hm | hm
          · exact h3 h hm
          · rw [List.mem_singleton.mp hm]
            exact Nat.lt_succ_of_le h4
        · exact Nat.le_succ_of_le h4
  have hres := key ops (⟨1⟩, []) (by intro h hm; cases hm)
    List.Pairwise.nil (by intro h hm; cases hm) (Nat.le_refl 1)
  refine ⟨hres.2.1, ?_, hres.2.2⟩
  exact List.Pairwise.imp (fun hlt => Nat.ne_of_lt hlt) hres.2.1

/-- Claim C10: for an attribute name outside the recognized extended
attribute sets, getxattr fails with the no-data error for every resolver
and every path: the check precedes path resolution, so the failure is the
same whether or not the path resolves to a node. -/
theorem getxattr_unknown_name_fails_first (path name : String)
    (h1 : ¬ name ∈ xattrsVars) (h2 : ¬ name ∈ fxattrsVars) :
    (∀ resolve : String → Option FsNode,
      acdGetxattr resolve path name = XattrResult.enodataErr) ∧
    (∀ r1 r2 : String → Option FsNode,
      acdGetxattr r1 path name = acdGetxattr r2 path name) := by
  have hall : ∀ resolve : String → Option FsNode,
      acdGetxattr resolve path name = XattrResult.enodataErr := by
    intro resolve
    simp only [acdGetxattr]
    rw [if_pos]
    constructor
    · simpa using h1
    · simpa using h2
  exact ⟨hall, fun r1 r2 => (hall r1).trans (hall r2).symm⟩

/-- Witness for claim C10: the unknown name user.foo fails with no-data on a
resolver that knows the path and on the empty resolver alike. -/
theorem getxattr_unknown_name_fails_first_witness :
    acdGetxattr sampleResolve "/a/x" "user.foo" = XattrResult.enodataErr ∧
    acdGetxattr emptyResolve "/a/x" "user.foo" = XattrResult.enodataErr :=
  ⟨(getxattr_unknown_name_fails_first "/a/x" "user.foo" (by decide)
      (by decide)).1 sampleResolve,
   (getxattr_unknown_name_fails_first "/a/x" "user.foo" (by decide)
      (by decide)).1 emptyResolve⟩

/-! ## Read proxy theorems -/

theorem getBytes_closed (c : StreamChunk) (l : Int) :
    (c.getBytes l).1.closed = c.closed := rfl

/-- A successful chunk search never grows the deque and only keeps chunks
whose closed flag comes from a chunk already present. -/
theorem searchRev_some_shape (o l : Int) :
    ∀ (xs ys : List StreamChunk) (n : Int),
    searchRev o l xs = some (ys, n) →
    ys.length ≤ xs.length ∧
    ∀ c ∈ ys, ∃ c₀ ∈ xs, c.closed = c₀.closed := by
  intro xs
  induction xs with
  | nil =>
    intro ys n h
    cases h
  | cons c rest ih =>
    intro ys n h
    simp only [searchRev] at h
    by_cases hbr : c.hasByteRange o l = true
    · rw [if_pos hbr] at h
      by_cases hbad : (c.getBytes l).2.2 = true
      · rw [if_pos hbad] at h
        obtain ⟨h1, h2⟩ := ih ys n h
        refine ⟨Nat.le_succ_of_le h1, fun d hd => ?_⟩
        obtain ⟨c₀, hc₀, heq⟩ := h2 d hd
        exact ⟨c₀, List.mem_cons_of_mem _ hc₀, heq⟩
      · rw [if_neg hbad] at h
        cases h
        constructor
        · simp
        · intro d hd
          rcases List.mem_cons.mp hd with rfl | hd'
          · exact ⟨c, List.mem_cons_self c rest, getBytes_closed c l⟩
          · exact ⟨d, List.mem_cons_of_mem _ hd', rfl⟩
    · rw [if_neg hbr] at h
      cases hrec : searchRev o l rest with
      | none =>
        rw [hrec] at h
        cases h
      | some p =>
        obtain ⟨rest', n'⟩ := p
        rw [hrec] at h
        cases h
        obtain ⟨h1, h2⟩ := ih _ _ hrec
        constructor
        · exact Nat.succ_le_succ h1
        · intro d hd
          rcases List.mem_cons.mp hd with rfl | hd'
          · exact ⟨d, List.mem_cons_self d rest, rfl⟩
          · obtain ⟨c₀, hc₀, heq⟩ := h2 d hd'
            exact ⟨c₀, List.mem_cons_of_mem _ hc₀, heq⟩

/-- Claim C5, amended: the chunk deque of a node never exceeds
MAX_CHUNKS_PER_FILE open chunks; when a read misses and the deque is at
capacity, the chunk evicted is the head of the deque, the oldest in
insertion order, and the new chunk is appended at the tail; but eviction
does not close the evicted chunk: a deque that contains only unclosed
chunks yields an unclosed evicted chunk, and closing happens only through
clear on release. -/
theorem chunk_bound_and_eviction_order (cs : List StreamChunk)
    (o l cl : Int) (hlen : cs.length ≤ MAX_CHUNKS_PER_FILE)
    (hunc : ∀ c ∈ cs, c.closed = false) :
    ((readFileGet cs o l cl).chunks.length ≤ MAX_CHUNKS_PER_FILE) ∧
    (∀ c ∈ (readFileGet cs o l cl).chunks, c.closed = false) ∧
    (∀ e, (readFileGet cs o l cl).evicted = some e → e.closed = false) ∧
    (cs.length = MAX_CHUNKS_PER_FILE →
      (readFileGet cs o l cl).openedNew = true →
      (readFileGet cs o l cl).evicted = cs.head? ∧
      (readFileGet cs o l cl).chunks =
        cs.tail ++ [((StreamChunk.init o cl).getBytes l).1]) := by
  cases hs : searchRev o l cs.reverse with
  | some p =>
    obtain ⟨ys, n⟩ := p
    obtain ⟨hl, hm⟩ := searchRev_some_shape o l cs.reverse ys n hs
    simp only [readFileGet, hs]
    refine ⟨?_, ?_, ?_, ?_⟩
    · simp only [List.length_reverse]
      rw [List.length_reverse] at hl
      exact le_trans hl hlen
    · intro c hc
      simp only [List.mem_reverse] at hc
      obtain ⟨c₀, hc₀, heq⟩ := hm c hc
      rw [heq]
      exact hunc c₀ (List.mem_reverse.mp hc₀)
    · intro e he
      cases he
    · intro _ hop
      cases hop
  | none =>
    simp only [readFileGet, hs]
    by_cases hcap : cs.length = MAX_CHUNKS_PER_FILE
    · rw [if_pos hcap]
      refine ⟨?_, ?_, ?_, fun _ _ => ⟨rfl, rfl⟩⟩
      · simp only [List.length_append, List.length_tail, List.length_cons,
          List.length_nil]
        rw [MAX_CHUNKS_PER_FILE] at hcap ⊢
        omega
      · intro c hc
        rcases List.mem_append.mp hc with hm | hm
        · exact hunc c (List.mem_of_mem_tail hm)
        · rw [List.mem_singleton.mp hm]
          rfl
      · intro e he
        exact hunc e (List.mem_of_mem_head? he)
    · rw [if_neg hcap]
      refine ⟨?_, ?_, ?_, fun hc => absurd hc hcap⟩
      · simp only [List.length_append, List.length_cons, List.length_nil]
        rw [MAX_CHUNKS_PER_FILE] at hlen hcap ⊢
        omega
      · intro c hc
        rcases List.mem_append.mp hc with hm | hm
        · exact hunc c hm
        · rw [List.mem_singleton.mp hm]
          rfl
      · intro e he
        cases he

/-- Witness for the amended claim C5: the sixteenth non-matching read on a
deque of fifteen unclosed chunks evicts the deque head and appends the new
chunk at the tail. -/
theorem chunk_bound_and_eviction_order_witness :
    (readFileGet evictionRun.1 200000 4096 8192).evicted =
      evictionRun.1.head? ∧
    (readFileGet evictionRun.1 200000 4096 8192).chunks =
      evictionRun.1.tail ++
        [((StreamChunk.init 200000 8192).getBytes 4096).1] :=
  (chunk_bound_and_eviction_order evictionRun.1 200000 4096 8192 (by decide)
    (by decide)).2.2.2 (by decide) (by decide)

/-- Claim C5 counterexample: after sixteen reads at pairwise non-matching
offsets from a fresh ReadFile, the deque holds fifteen chunks and the
sixteenth read evicted the first-inserted chunk, whose closed flag is still
false: the eviction did not close the evicted stream, contrary to the
claim. -/
theorem evicted_chunk_not_closed : evictionRun.1.length = 15 ∧
    evictionRun.2 = some { offset := 4096, ends := 8191, closed := false } ∧
    evictionRun.2.map (fun c => c.closed) = some false := by
  refine ⟨by decide, by decide, by decide⟩

/-! ## Rename lemmas -/

theorem acdRename_noop (resolve : String → Option FsNode) (p : String) :
    acdRename resolve p p = ([], none) := by
  simp [acdRename]

theorem acdRename_missing_source (resolve : String → Option FsNode)
    (old new : String) (hne : old ≠ new) (hro : resolve old = none) :
    acdRename resolve old new = ([], some Errno.enoent) := by
  simp [acdRename, hne, hro]

theorem acdRename_folder_dest (resolve : String → Option FsNode)
    (old new : String) (node ex : FsNode) (hne : old ≠ new)
    (hro : resolve old = some node) (hrn : resolve new = some ex)
    (hex : ex.isFile = false) :
    acdRename resolve old new = ([], some Errno.eexist) := by
  simp [acdRename, hne, hro, hrn, hex]

theorem acdRename_trashes_dest_file (resolve : String → Option FsNode)
    (old new : String) (node ex : FsNode) (hne : old ≠ new)
    (hro : resolve old = some node) (hrn : resolve new = some ex)
    (hex : ex.isFile = true) :
    ∃ rest, (acdRename resolve old new).1 =
      FsAction.trashNode ex.id :: FsAction.upsertNode ex.id :: rest := by
  by_cases hdn : ospDirname new = ospDirname old
  · by_cases hbn : ospBasename new = ospBasename old
    · exact ⟨[], by simp [acdRename, trashPath, hne, hro, hrn, hex, hdn,
        hbn]⟩
    · exact ⟨[FsAction.renameNode node.id (ospBasename new),
        FsAction.upsertNode node.id], by simp [acdRename, trashPath, hne,
        hro, hrn, hex, hdn, hbn]⟩
  · cases hnd : resolve (ospDirname new) with
    | none =>
      by_cases hbn : ospBasename new = ospBasename old
      · exact ⟨[], by simp [acdRename, trashPath, hne, hro, hrn, hex, hdn,
          hbn, hnd]⟩
      · exact ⟨[FsAction.renameNode node.id (ospBasename new),
          FsAction.upsertNode node.id], by simp [acdRename, trashPath, hne,
          hro, hrn, hex, hdn, hbn, hnd]⟩
    | some ndir =>
      by_cases hbn : ospBasename new = ospBasename old
      · exact ⟨[FsAction.moveNode node.id ndir.id,
          FsAction.upsertNode node.id], by simp [acdRename, trashPath, hne,
          hro, hrn, hex, hdn, hbn, hnd]⟩
      · exact ⟨[FsAction.renameNode node.id (ospBasename new),
          FsAction.upsertNode node.id, FsAction.moveNode node.id ndir.id,
          FsAction.upsertNode node.id], by simp [acdRename, trashPath, hne,
          hro, hrn, hex, hdn, hbn, hnd]⟩

theorem acdRename_exact_mutations (resolve : String → Option FsNode)
    (old new : String) (node : FsNode) (hne : old ≠ new)
    (hro : resolve old = some node)
    (hok : (acdRename resolve old new).2 = none) :
    ((∃ nm, FsAction.renameNode node.id nm ∈ (acdRename resolve old new).1)
      ↔ ospBasename new ≠ ospBasename old) ∧
    ((∃ pid, FsAction.moveNode node.id pid ∈ (acdRename resolve old new).1)
      ↔ ospDirname new ≠ ospDirname old) := by
  by_cases hdn : ospDirname new = ospDirname old
  · by_cases hbn : ospBasename new = ospBasename old
    · cases hrn : resolve new with
      | none =>
        simp [acdRename, trashPath, hne, hro, hrn, hdn, hbn]
      | some ex =>
        by_cases hex : ex.isFile = true
        · simp [acdRename, trashPath, hne, hro, hrn, hex, hdn, hbn]
        · rw [Bool.not_eq_true] at hex
          rw [acdRename_folder_dest resolve old new node ex hne hro hrn hex]
            at hok
          cases hok
    · cases hrn : resolve new with
      | none =>
        simp [acdRename, trashPath, hne, hro, hrn, hdn, hbn]
      | some ex =>
        by_cases hex : ex.isFile = true
        · simp [acdRename, trashPath, hne, hro, hrn, hex, hdn, hbn]
        · rw [Bool.not_eq_true] at hex
          rw [acdRename_folder_dest resolve old new node ex hne hro hrn hex]
            at hok
          cases hok
  · cases hnd : resolve (ospDirname new) with
    | none =>
      cases hrn : resolve new with
      | none =>
        rw [show (acdRename resolve old new).2 = some Errno.enotdir from
          by simp [acdRename, trashPath, hne, hro, hrn, hdn, hnd]] at hok
        cases hok
      | some ex =>
        by_cases hex : ex.isFile = true
        · rw [show (acdRename resolve old new).2 = some Errno.enotdir from
            by simp [acdRename, trashPath, hne, hro, hrn, hex, hdn, hnd]]
            at hok
          cases hok
        · rw [Bool.not_eq_true] at hex
          rw [acdRename_folder_dest resolve old new node ex hne hro hrn hex]
            at hok
          cases hok
    | some ndir =>
      cases hrn : resolve new with
      | none =>
        by_cases hbn : ospBasename new = ospBasename old
        · simp [acdRename, trashPath, hne, hro, hrn, hdn, hbn, hnd]
        · simp [acdRename, trashPath, hne, hro, hrn, hdn, hbn, hnd]
      | some ex =>
        by_cases hex : ex.isFile = true
        · by_cases hbn : ospBasename new = ospBasename old
          · simp [acdRename, trashPath, hne, hro, hrn, hex, hdn, hbn, hnd]
          · simp [acdRename, trashPath, hne, hro, hrn, hex, hdn, hbn, hnd]
        · rw [Bool.not_eq_true] at hex
          rw [acdRename_folder_dest resolve old new node ex hne hro hrn hex]
            at hok
          cases hok

theorem mutationsUpserted_branch (c : Prop) [Decidable c] (i bn : String)
    (m : List FsAction) (hm : mutationsUpserted m = true) :
    mutationsUpserted ((if c then [] else
      [FsAction.renameNode i bn, FsAction.upsertNode i]) ++ m) = true := by
  by_cases h : c
  · simp [h, hm]
  · simp [h, mutationsUpserted, hm]

theorem acdRename_mutations_upserted (resolve : String → Option FsNode)
    (old new : String) :
    mutationsUpserted (acdRename resolve old new).1 = true := by
  by_cases h0 : old = new
  · simp [acdRename, h0, mutationsUpserted]
  · cases hro : resolve old with
    | none => simp [acdRename, h0, hro, mutationsUpserted]
    | some node =>
      by_cases hdn : ospDirname new = ospDirname old
      · by_cases hbn : ospBasename new = ospBasename old
        · cases hrn : resolve new with
          | none => simp [acdRename, trashPath, h0, hro, hrn, hdn, hbn,
              mutationsUpserted]
          | some ex =>
            by_cases hex : ex.isFile = true
            · simp [acdRename, trashPath, h0, hro, hrn, hex, hdn, hbn,
                mutationsUpserted]
            · rw [Bool.not_eq_true] at hex
              simp [acdRename, trashPath, h0, hro, hrn, hex, hdn, hbn,
                mutationsUpserted]
        · cases hrn : resolve new with
          | none => simp [acdRename, trashPath, h0, hro, hrn, hdn, hbn,
              mutationsUpserted]
          | some ex =>
            by_cases hex : ex.isFile = true
            · simp [acdRename, trashPath, h0, hro, hrn, hex, hdn, hbn,
                mutationsUpserted]
            · rw [Bool.not_eq_true] at hex
              simp [acdRename, trashPath, h0, hro, hrn, hex, hdn, hbn,
                mutationsUpserted]
      · cases hnd : resolve (ospDirname new) with
        | none =>
          cases hrn : resolve new with
          | none =>
            simp [acdRename, trashPath, h0, hro, hrn, hdn, hnd,
              mutationsUpserted]
            simpa using mutationsUpserted_branch
              (ospBasename new = ospBasename old) node.id (ospBasename new)
              [] rfl
          | some ex =>
            by_cases hex : ex.isFile = true
            · simp [acdRename, trashPath, h0, hro, hrn, hex, hdn, hnd,
                mutationsUpserted]
              simpa using mutationsUpserted_branch
                (ospBasename new = ospBasename old) node.id
                (ospBasename new) [] rfl
            · rw [Bool.not_eq_true] at hex
              simp [acdRename, trashPath, h0, hro, hrn, hex, hdn, hnd,
                mutationsUpserted]
        | some ndir =>
          cases hrn : resolve new with
          | none =>
            simp [acdRename, trashPath, h0, hro, hrn, hdn, hnd,
              mutationsUpserted]
            simpa using mutationsUpserted_branch
              (ospBasename new = ospBasename old) node.id (ospBasename new)
              [FsAction.moveNode node.id ndir.id,
               FsAction.upsertNode node.id] (by simp [mutationsUpserted])
          | some ex =>
            by_cases hex : ex.isFile = true
            · simp [acdRename, trashPath, h0, hro, hrn, hex, hdn, hnd,
                mutationsUpserted]
              simpa using mutationsUpserted_branch
                (ospBasename new = ospBasename old) node.id
                (ospBasename new) [FsAction.moveNode node.id ndir.id,
                  FsAction.upsertNode node.id] (by simp [mutationsUpserted])
            · rw [Bool.not_eq_true] at hex
              simp [acdRename, trashPath, h0, hro, hrn, hex, hdn, hnd,
                mutationsUpserted]

/-- Claim C6: rename is a no-op when both paths are equal; it fails with
no-such-entry when the source does not resolve; it trashes an existing file
at the destination before any rename or move; it fails with already-exists
when the destination is an existing folder; on success it renames exactly
when the basenames differ and moves exactly when the parent directory paths
differ; and every remote mutation is immediately followed by the cache
upsert of the returned metadata. -/
theorem rename_dispatch_behaviour (resolve : String → Option FsNode)
    (old new : String) (node ex : FsNode) :
    (acdRename resolve old old = ([], none)) ∧
    (old ≠ new → resolve old = none →
      acdRename resolve old new = ([], some Errno.enoent)) ∧
    (old ≠ new → resolve old = some node → resolve new = some ex →
      ex.isFile = true → ∃ rest, (acdRename resolve old new).1 =
        FsAction.trashNode ex.id :: FsAction.upsertNode ex.id :: rest) ∧
    (old ≠ new → resolve old = some node → resolve new = some ex →
      ex.isFile = false →
      acdRename resolve old new = ([], some Errno.eexist)) ∧
    (old ≠ new → resolve old = some node →
      (acdRename resolve old new).2 = none →
      (((∃ nm, FsAction.renameNode node.id nm ∈
          (acdRename resolve old new).1) ↔
        ospBasename new ≠ ospBasename old) ∧
       ((∃ pid, FsAction.moveNode node.id pid ∈
          (acdRename resolve old new).1) ↔
        ospDirname new ≠ ospDirname old))) ∧
    (mutationsUpserted (acdRename resolve old new).1 = true) :=
  ⟨acdRename_noop resolve old,
   fun h1 h2 => acdRename_missing_source resolve old new h1 h2,
   fun h1 h2 h3 h4 =>
     acdRename_trashes_dest_file resolve old new node ex h1 h2 h3 h4,
   fun h1 h2 h3 h4 =>
     acdRename_folder_dest resolve old new node ex h1 h2 h3 h4,
   fun h1 h2 h3 => acdRename_exact_mutations resolve old new node h1 h2 h3,
   acdRename_mutations_upserted resolve old new⟩

/-- Witness for claim C6: renaming the unresolved path /a/q fails with
no-such-entry, and the trace of renaming /a/x over the existing file /b/y
has every remote mutation followed by its cache upsert. -/
theorem rename_dispatch_behaviour_witness :
    acdRename sampleResolve "/a/q" "/a/r" = ([], some Errno.enoent) ∧
    mutationsUpserted (acdRename sampleResolve "/a/x" "/b/y").1 = true :=
  ⟨(rename_dispatch_behaviour sampleResolve "/a/q" "/a/r"
      ⟨"", true, 0, "", none⟩ ⟨"", true, 0, "", none⟩).2.1 (by decide)
      (by decide),
   (rename_dispatch_behaviour sampleResolve "/a/x" "/b/y"
      ⟨"NX", true, 10, "mx", none⟩ ⟨"NY", true, 5, "my", none⟩).2.2.2.2.2⟩

end AcdCli
